import Mathlib

/-
  Verification development for the LanForge session-continuity engine.

  The definitions below are a shallow embedding of the TypeScript sources:
  - src/engine/src/server/RoomManager.ts  (room model: create/join/leave/kick/chat/election)
  - src/engine/src/peer/PeerNode.ts       (peer-side leader election)
  - src/engine/src/network/Encoder.ts     (frame decoding)
  - src/engine/src/discovery/udpDiscovery.ts (host discovery)
  - src/engine/src/server/Server.ts       (heartbeat loop, incoming-frame activity)
  - src/engine/src/states/makeSnapshot.ts / restoreFromSnapshot.ts

  JavaScript Maps are modelled as insertion-ordered association lists
  (lookup finds the first matching key; set replaces in place or appends;
  delete removes the entry), which matches Map iteration semantics.
-/

namespace LanForge

/-- Lookup in an insertion-ordered association list (JS Map.get). -/
def mapGet {α : Type} (m : List (String × α)) (k : String) : Option α :=
  (m.find? (fun p => p.1 = k)).map (fun p => p.2)

/-- Update in an insertion-ordered association list (JS Map.set):
replaces the value at an existing key in place, else appends. -/
def mapSet {α : Type} (m : List (String × α)) (k : String) (v : α) : List (String × α) :=
  match m with
  | [] => [(k, v)]
  | (k1, v1) :: rest => if k1 = k then (k, v) :: rest else (k1, v1) :: mapSet rest k v

/-- Deletion from an insertion-ordered association list (JS Map.delete). -/
def mapDelete {α : Type} (m : List (String × α)) (k : String) : List (String × α) :=
  match m with
  | [] => []
  | (k1, v1) :: rest => if k1 = k then rest else (k1, v1) :: mapDelete rest k

/- =========================
   Data model (RoomManager.ts)
========================= -/

inductive Role where
  | host
  | member
deriving DecidableEq

structure Member where
  deviceId : String
  clientId : String
  name : String
  joinOrder : Nat
  role : Role
deriving DecidableEq

structure ChatMessage where
  fromDeviceId : String
  fromName : String
  text : String
  timestamp : Nat
deriving DecidableEq

structure Room where
  roomId : String
  joinCode : String
  hostDeviceId : String
  members : List Member
  chat : List ChatMessage
deriving DecidableEq

/-- The mutable state of the RoomManager class: the two Maps and the
coordinator-wide join counter. -/
structure RoomManager where
  rooms : List (String × Room)
  joinCodeToRoomId : List (String × String)
  globalJoinCounter : Nat
deriving DecidableEq

def RoomManager.empty : RoomManager := ⟨[], [], 0⟩

/-- Errors thrown by RoomManager operations.  TYPE_ERROR stands for the
JavaScript runtime TypeError raised when a non-null assertion or an
indexing of an empty sorted array fails. -/
inductive RMError where
  | INVALID_JOIN_CODE
  | NAME_CONFLICT
  | ROOM_NOT_FOUND
  | NOT_HOST
  | NOT_IN_ROOM
  | MEMBER_NOT_FOUND
  | TYPE_ERROR
deriving DecidableEq

/- =========================
   Deterministic hash and election
========================= -/

/-- Wrap an integer to a signed 32-bit value, as the JS bitwise operators do. -/
def toInt32 (n : Int) : Int := (n + 2 ^ 31) % 2 ^ 32 - 2 ^ 31

/-- One step of the string hash: hash = (hash << 5) - hash + charCode, hash |= 0.
The shift itself truncates to 32 bits before the subtraction. -/
def jsHashStep (h : Int) (c : Nat) : Int := toInt32 (toInt32 (h * 32) - h + c)

/-- The deterministic 32-bit string hash used by both election sites
(RoomManager.hash and PeerNode.hash), including the final Math.abs. -/
def jsHash (s : String) : Nat := (s.data.foldl (fun h c => jsHashStep h c.toNat) 0).natAbs

/-- The numeric comparator passed to Array.prototype.sort by both
electNewHost and runLeaderElection. -/
def memberCmp (a b : Member) : Int :=
  if a.joinOrder ≠ b.joinOrder then (a.joinOrder : Int) - (b.joinOrder : Int)
  else (jsHash a.deviceId : Int) - (jsHash b.deviceId : Int)

/-- The ordering induced by the comparator: a sorts no later than b. -/
def memberLe (a b : Member) : Prop := memberCmp a b ≤ 0

instance : DecidableRel memberLe := fun a b => inferInstanceAs (Decidable (memberCmp a b ≤ 0))

/-- Stable sort of the member array by the election comparator.  Modern
Array.prototype.sort is a stable sort driven by the comparator; insertion
sort with the non-strict comparator relation is the standard stable model. -/
def sortMembers (ms : List Member) : List Member := List.insertionSort memberLe ms

/-- Coordinator-side election (RoomManager.electNewHost): looks the room up,
sorts its members by (joinOrder, hash deviceId) and returns the first
deviceId.  An empty member array would make sorted[0] undefined and the
field access throw, modelled as TYPE_ERROR. -/
def electNewHost (mgr : RoomManager) (roomId : String) : Except RMError String :=
  match mapGet mgr.rooms roomId with
  | none => .error .ROOM_NOT_FOUND
  | some room =>
    match sortMembers room.members with
    | [] => .error .TYPE_ERROR
    | m :: _ => .ok m.deviceId

/- =========================
   Snapshot state (states/types)
========================= -/

structure SnapRoom where
  roomId : String
  joinCode : String
  hostDeviceId : String
  members : List Member
deriving DecidableEq

structure SnapIdentity where
  deviceIdToClientId : List (String × String)
  deviceIdToName : List (String × String)
deriving DecidableEq

structure SnapshotState where
  room : SnapRoom
  chat : List ChatMessage
  identity : SnapIdentity
deriving DecidableEq

/-- Peer-side election (PeerNode.runLeaderElection): sorts the cached
snapshot's members with the identical comparator and returns the elected
deviceId and clientId; none when no snapshot is cached. -/
def runLeaderElection (latestSnapshot : Option SnapshotState) : Option (String × String) :=
  match latestSnapshot with
  | none => none
  | some snap =>
    match sortMembers snap.room.members with
    | [] => none
    | m :: _ => some (m.deviceId, m.clientId)

/- =========================
   RoomManager operations
========================= -/

/-- RoomManager.createRoom.  The join code is produced by rejection sampling
over [A-Z0-9]^6 until it is absent from joinCodeToRoomId; the sampled code
is passed in as a parameter here, with freshness required where reachability
is defined. -/
def createRoom (mgr : RoomManager) (roomId hostDeviceId hostClientId hostName joinCode : String) :
    Room × RoomManager :=
  let host : Member :=
    { deviceId := hostDeviceId, clientId := hostClientId, name := hostName
      joinOrder := mgr.globalJoinCounter, role := .host }
  let room : Room :=
    { roomId := roomId, joinCode := joinCode, hostDeviceId := hostDeviceId
      members := [host], chat := [] }
  (room,
   { rooms := mapSet mgr.rooms roomId room
     joinCodeToRoomId := mapSet mgr.joinCodeToRoomId joinCode roomId
     globalJoinCounter := mgr.globalJoinCounter + 1 })

/-- RoomManager.joinRoomByCode.  All throws happen before any mutation, so
the state component is the unchanged manager on error. -/
def joinRoomByCode (mgr : RoomManager) (joinCode deviceId clientId name : String) :
    Except RMError Room × RoomManager :=
  match mapGet mgr.joinCodeToRoomId joinCode with
  | none => (.error .INVALID_JOIN_CODE, mgr)
  | some roomId =>
    match mapGet mgr.rooms roomId with
    | none => (.error .TYPE_ERROR, mgr)
    | some room =>
      if room.members.any (fun m => m.name = name) then (.error .NAME_CONFLICT, mgr)
      else
        let newMember : Member :=
          { deviceId := deviceId, clientId := clientId, name := name
            joinOrder := mgr.globalJoinCounter, role := .member }
        let room1 : Room := { room with members := room.members ++ [newMember] }
        (.ok room1,
         { mgr with rooms := mapSet mgr.rooms roomId room1
                    globalJoinCounter := mgr.globalJoinCounter + 1 })

/-- RoomManager.findRoomByDevice, returning also the Map key the room is
stored under (in-place mutation of the found object updates that entry). -/
def findRoomEntryByDevice (mgr : RoomManager) (deviceId : String) : Option (String × Room) :=
  mgr.rooms.find? (fun p => p.2.members.any (fun m => m.deviceId = deviceId))

/-- RoomManager.destroyRoom: removes the room and releases its join code. -/
def destroyRoom (mgr : RoomManager) (room : Room) : RoomManager :=
  { mgr with rooms := mapDelete mgr.rooms room.roomId
             joinCodeToRoomId := mapDelete mgr.joinCodeToRoomId room.joinCode }

/-- RoomManager.leaveRoom.  The member array is filtered in place first;
then either the room is destroyed (empty), or, when the leaver was host,
a new host is elected and every role field rewritten. -/
def leaveRoom (mgr : RoomManager) (deviceId : String) :
    Except RMError (Option Room) × RoomManager :=
  match findRoomEntryByDevice mgr deviceId with
  | none => (.ok none, mgr)
  | some (key, room) =>
    if room.members.filter (fun m => ¬ m.deviceId = deviceId) = [] then
      (.ok none,
       destroyRoom
        { mgr with rooms := (mapSet mgr.rooms key
            { room with members := room.members.filter (fun m => ¬ m.deviceId = deviceId) }) }
        { room with members := room.members.filter (fun m => ¬ m.deviceId = deviceId) })
    else if room.hostDeviceId = deviceId then
      match electNewHost
          { mgr with rooms := (mapSet mgr.rooms key
              { room with members := room.members.filter (fun m => ¬ m.deviceId = deviceId) }) }
          room.roomId with
      | .error e =>
        (.error e,
         { mgr with rooms := (mapSet mgr.rooms key
             { room with members := room.members.filter (fun m => ¬ m.deviceId = deviceId) }) })
      | .ok newHostId =>
        (.ok (some
          { room with hostDeviceId := newHostId
                      members := ((room.members.filter (fun m => ¬ m.deviceId = deviceId)).map
                        (fun m =>
                          { m with role := if m.deviceId = newHostId then .host else .member })) }),
         { mgr with rooms := (mapSet
             (mapSet mgr.rooms key
               { room with members := room.members.filter (fun m => ¬ m.deviceId = deviceId) })
             key
             { room with hostDeviceId := newHostId
                         members := ((room.members.filter (fun m => ¬ m.deviceId = deviceId)).map
                           (fun m =>
                             { m with role := if m.deviceId = newHostId then .host
                                              else .member })) }) })
    else
      (.ok (some { room with members := room.members.filter (fun m => ¬ m.deviceId = deviceId) }),
       { mgr with rooms := (mapSet mgr.rooms key
           { room with members := room.members.filter (fun m => ¬ m.deviceId = deviceId) }) })

/-- RoomManager.kick: requires the caller to be in a room and to be its
host, then filters the target out of the member array.  No re-election,
no room destruction. -/
def kick (mgr : RoomManager) (hostDeviceId targetDeviceId : String) :
    Except RMError Room × RoomManager :=
  match findRoomEntryByDevice mgr hostDeviceId with
  | none => (.error .ROOM_NOT_FOUND, mgr)
  | some (key, room) =>
    if ¬ room.hostDeviceId = hostDeviceId then (.error .NOT_HOST, mgr)
    else
      let room1 : Room :=
        { room with members := room.members.filter (fun m => ¬ m.deviceId = targetDeviceId) }
      (.ok room1, { mgr with rooms := mapSet mgr.rooms key room1 })

/-- RoomManager.appendChat.  The timestamp (Date.now) is a parameter. -/
def appendChat (mgr : RoomManager) (roomId fromDeviceId text : String) (now : Nat) :
    Except RMError ChatMessage × RoomManager :=
  match mapGet mgr.rooms roomId with
  | none => (.error .ROOM_NOT_FOUND, mgr)
  | some room =>
    match room.members.find? (fun m => m.deviceId = fromDeviceId) with
    | none => (.error .NOT_IN_ROOM, mgr)
    | some sender =>
      let msg : ChatMessage :=
        { fromDeviceId := fromDeviceId, fromName := sender.name, text := text, timestamp := now }
      let chat1 := room.chat ++ [msg]
      let chat2 := if chat1.length > 50 then chat1.tail else chat1
      let room1 : Room := { room with chat := chat2 }
      (.ok msg, { mgr with rooms := mapSet mgr.rooms roomId room1 })

/- =========================
   Snapshot (states/makeSnapshot.ts, states/restoreFromSnapshot.ts)
========================= -/

/-- states/makeSnapshot.ts: copies the room fields and rebuilds the two
identity records by assigning record[member.deviceId] in member order.
Record assignment keeps the first insertion position and overwrites the
value, which is exactly mapSet on the ordered association list. -/
def makeSnapshot (mgr : RoomManager) (roomId : String) : Except RMError SnapshotState :=
  match mapGet mgr.rooms roomId with
  | none => .error .ROOM_NOT_FOUND
  | some room =>
    .ok { room := { roomId := room.roomId, joinCode := room.joinCode
                    hostDeviceId := room.hostDeviceId, members := room.members }
          chat := room.chat
          identity :=
            { deviceIdToClientId :=
                room.members.foldl (fun acc m => mapSet acc m.deviceId m.clientId) []
              deviceIdToName :=
                room.members.foldl (fun acc m => mapSet acc m.deviceId m.name) [] } }

/-- Modelled from the spec: RoomManager.restoreRoomFromSnapshot is invoked
by states/restoreFromSnapshot.ts and PeerNode.becomeHostAfterMigration but
is not defined under src/.  Spec section 4.4 (Restore): the seeded
coordinator rebuilds the room preserving roomId, joinCode, hostDeviceId,
member list and chat buffer, and the restored room is live (its join code
resolves), so the room is inserted into both Maps. -/
def restoreRoomFromSnapshot (mgr : RoomManager) (room : Room) : RoomManager :=
  { mgr with rooms := mapSet mgr.rooms room.roomId room
             joinCodeToRoomId := mapSet mgr.joinCodeToRoomId room.joinCode room.roomId }

/-- states/restoreFromSnapshot.ts: rebuilds the Room value from the
snapshot (shallow copies of members and chat) and hands it to the
RoomManager. -/
def restoreFromSnapshot (snap : SnapshotState) (mgr : RoomManager) : RoomManager :=
  restoreRoomFromSnapshot mgr
    { roomId := snap.room.roomId, joinCode := snap.room.joinCode
      hostDeviceId := snap.room.hostDeviceId
      members := snap.room.members, chat := snap.chat }

/- =========================
   Wire codec (network/Encoder.ts, network/MessageTypes.ts)
========================= -/

/-- Values produced by JSON.parse. -/
inductive JsonVal where
  | null
  | bool (b : Bool)
  | num (n : Int)
  | str (s : String)
  | arr (xs : List JsonVal)
  | obj (fields : List (String × JsonVal))

/-- The closed MessageType enumeration (network/MessageTypes.ts). -/
def validTypes : List String :=
  [("PING"), ("PONG"), ("ECHO"), ("ERROR"),
   ("CREATE_ROOM"), ("JOIN_ROOM"), ("LEAVE_ROOM"), ("ROOM_STATE"),
   ("HELLO"), ("WELCOME"), ("CHAT"), ("STATE_SNAPSHOT"),
   ("HOST_CHANGED"), ("KICK"), ("KICKED"),
   ("GAME_START"), ("GAME_ACTION"), ("GAME_UPDATE")]

/-- Property access on a parsed JSON value: only objects yield fields. -/
def getField (v : JsonVal) (k : String) : Option JsonVal :=
  match v with
  | .obj fields => (fields.find? (fun p => p.1 = k)).map (fun p => p.2)
  | _ => none

/-- The test (!parsed || typeof parsed !== "object"): passes for non-null
objects, arrays included. -/
def isNonNullObject (v : JsonVal) : Bool :=
  match v with
  | .obj _ => true
  | .arr _ => true
  | _ => false

def isStringVal (v : Option JsonVal) : Bool :=
  match v with
  | some (.str _) => true
  | _ => false

/-- isMessageTypeValue (network/MessageTypes.ts): a string among the enum
values.  The additional !maybeMsg.type truthiness test in the decoder is
subsumed: every valid type string is nonempty, and every falsy value fails
this check as well. -/
def isValidTypeField (v : Option JsonVal) : Bool :=
  match v with
  | some (.str s) => validTypes.contains s
  | _ => false

/-- network/Encoder.ts parseIncomingMessage (lines 47-76), applied to the
value produced by JSON.parse: rejects non-objects, invalid or unknown
type, non-string requestId, non-string clientId; otherwise returns the
parsed value itself.  The payload field is never inspected. -/
def parseIncomingMessage (v : JsonVal) : Option JsonVal :=
  if ¬ isNonNullObject v then none
  else if ¬ isValidTypeField (getField v ("type")) then none
  else if ¬ isStringVal (getField v ("requestId")) then none
  else if ¬ isStringVal (getField v ("clientId")) then none
  else some v

/-- Well-formedness of a frame as the decoder actually enforces it. -/
def wellFormedFrame (v : JsonVal) : Bool :=
  isNonNullObject v && isValidTypeField (getField v ("type")) &&
  isStringVal (getField v ("requestId")) && isStringVal (getField v ("clientId"))

/-- Malformedness as the specification words it: not an object, type
absent or unknown, requestId absent or non-string, or payload present but
not an object. -/
def specMalformed (v : JsonVal) : Bool :=
  !isNonNullObject v || !isValidTypeField (getField v ("type")) ||
  !isStringVal (getField v ("requestId")) ||
  (match getField v ("payload") with
   | some p => match p with | .obj _ => false | _ => true
   | none => false)

/- =========================
   Discovery (discovery/udpDiscovery.ts)
========================= -/

/-- JS parseInt(s, 10): skip leading whitespace, optional sign, then the
longest leading run of decimal digits; NaN (none) when that run is empty. -/
def jsParseInt (s : String) : Option Int :=
  let cs := s.data.dropWhile (fun c => c = ' ' ∨ c = '\t' ∨ c = '\n' ∨ c = '\r')
  let signAndRest : Int × List Char :=
    match cs with
    | '-' :: rest => (-1, rest)
    | '+' :: rest => (1, rest)
    | _ => (1, cs)
  let ds := signAndRest.2.takeWhile Char.isDigit
  if ds = [] then none
  else some (signAndRest.1 * ((ds.foldl (fun acc c => acc * 10 + (c.toNat - 48)) 0 : Nat) : Int))

structure DiscoveredHost where
  ip : String
  port : Int
  roomId : String
  joinCode : String
  hostId : String
  lastSeen : Nat
deriving DecidableEq

/-- A received datagram: its text, source address and arrival time. -/
structure TDatagram where
  text : String
  srcIp : String
  time : Nat
deriving DecidableEq

/-- Splitting a character list at every single space, as JS
String.prototype.split with separator " " does (adjacent separators yield
empty fields, the empty string yields one empty field). -/
def splitSpaceAux : List Char → List Char → List String
  | [], acc => [String.mk acc.reverse]
  | c :: rest, acc =>
    if c = ' ' then String.mk acc.reverse :: splitSpaceAux rest []
    else splitSpaceAux rest (c :: acc)

/-- JS text.split(" ") on the datagram payload. -/
def jsSplitSpace (s : String) : List String := splitSpaceAux s.data []

/-- The datagram validation of the message handler: first token
LANFORGE_HOST, at least five space-separated fields, parseable port. -/
def parseAnnounce (td : TDatagram) : Option DiscoveredHost :=
  match jsSplitSpace td.text with
  | p0 :: p1 :: p2 :: p3 :: p4 :: _ =>
    if p0 = ("LANFORGE_HOST") then
      match jsParseInt p4 with
      | none => none
      | some port =>
        some { ip := td.srcIp, port := port, roomId := p1, joinCode := p2
               hostId := p3, lastSeen := td.time }
    else none
  | _ => none

/-- The deduplication key used by the discoverer. -/
def hostKey (h : DiscoveredHost) : String := h.ip ++ (":") ++ toString h.port

/-- One datagram through the discoverer's message handler: malformed
datagrams are dropped; a well-formed one is stored under its key, and the
callback fires only when the key was previously unknown. -/
def handleMessage (st : List (String × DiscoveredHost)) (td : TDatagram) :
    List (String × DiscoveredHost) × Option DiscoveredHost :=
  match parseAnnounce td with
  | none => (st, none)
  | some h =>
    if (mapGet st (hostKey h)).isSome then (mapSet st (hostKey h) h, none)
    else (mapSet st (hostKey h) h, some h)

/-- A discovery session: the datagrams of one window processed in arrival
order, returning the final table and the callback invocations in order. -/
def runDiscovery (st : List (String × DiscoveredHost)) :
    List TDatagram → List (String × DiscoveredHost) × List DiscoveredHost
  | [] => (st, [])
  | td :: rest =>
    let step := handleMessage st td
    let toFinal := runDiscovery step.1 rest
    (toFinal.1, step.2.toList ++ toFinal.2)

/-- The parse of the first datagram of the list carrying key k, if any. -/
def firstWithKey (k : String) : List TDatagram → Option DiscoveredHost
  | [] => none
  | td :: rest =>
    match parseAnnounce td with
    | some h => if hostKey h = k then some h else firstWithKey k rest
    | none => firstWithKey k rest

/-- The parse of the last datagram of the list carrying key k, if any. -/
def lastWithKey (k : String) (ds : List TDatagram) : Option DiscoveredHost :=
  firstWithKey k ds.reverse

/-- Left-biased choice between optional hosts. -/
def orO (a b : Option DiscoveredHost) : Option DiscoveredHost :=
  match a with
  | some x => some x
  | none => b

/- =========================
   Coordinator heartbeat (server/Server.ts, server/Client.ts)
========================= -/

/-- The per-connection state the heartbeat loop reads. -/
structure ClientConn where
  clientId : String
  lastActiveTime : Nat
deriving DecidableEq

inductive HBAction where
  | close (clientId reason : String)
  | ping (clientId : String)
deriving DecidableEq

/-- One tick of startHeartbeatLoop: iterate the connection map; a
connection silent for strictly more than 15000 ms is closed with reason
Heartbeat timeout and removed, any other is sent a PING. -/
def heartbeatTick (now : Nat) (clients : List (String × ClientConn)) :
    List (String × ClientConn) × List HBAction :=
  match clients with
  | [] => ([], [])
  | (cid, c) :: rest =>
    let restResult := heartbeatTick now rest
    if now - c.lastActiveTime > 15000 then
      (restResult.1, .close cid ("Heartbeat timeout") :: restResult.2)
    else
      ((cid, c) :: restResult.1, .ping cid :: restResult.2)

/-- The lastActiveTime effect of handleIncomingMessage (Server.ts lines
60-68): the frame is decoded first; on decode failure an error frame is
sent and the handler returns before updateLastSeen, so the activity time
is refreshed only for frames that decode. -/
def handleFrameActivity (conn : ClientConn) (raw : JsonVal) (now : Nat) : ClientConn :=
  match parseIncomingMessage raw with
  | none => conn
  | some _ => { conn with lastActiveTime := now }

/- =========================
   Reachability of RoomManager states
========================= -/

/-- One observable operation on the room model.  createRoom carries the
freshness of the sampled join code, which the rejection-sampling loop of
generateJoinCode guarantees; the other operations are unconstrained. -/
inductive Step : RoomManager → RoomManager → Prop where
  | create (mgr : RoomManager) (roomId hostDeviceId hostClientId hostName joinCode : String)
      (mgr1 : RoomManager)
      (hfresh : mapGet mgr.joinCodeToRoomId joinCode = none)
      (heq : mgr1 = (createRoom mgr roomId hostDeviceId hostClientId hostName joinCode).2) :
      Step mgr mgr1
  | join (mgr : RoomManager) (joinCode deviceId clientId name : String) (mgr1 : RoomManager)
      (heq : mgr1 = (joinRoomByCode mgr joinCode deviceId clientId name).2) :
      Step mgr mgr1
  | leave (mgr : RoomManager) (deviceId : String) (mgr1 : RoomManager)
      (heq : mgr1 = (leaveRoom mgr deviceId).2) :
      Step mgr mgr1
  | kickStep (mgr : RoomManager) (hostDeviceId targetDeviceId : String) (mgr1 : RoomManager)
      (heq : mgr1 = (kick mgr hostDeviceId targetDeviceId).2) :
      Step mgr mgr1

/-- Manager states reachable from the initial empty manager by the four
observable operations. -/
inductive Reachable : RoomManager → Prop where
  | init : Reachable RoomManager.empty
  | step (mgr mgr1 : RoomManager) (h : Reachable mgr) (hs : Step mgr mgr1) : Reachable mgr1

/- =========================
   Association-list lemmas
========================= -/

theorem mapGet_nil {α : Type} (k : String) : mapGet ([] : List (String × α)) k = none := rfl

theorem mapGet_cons {α : Type} (k1 : String) (v1 : α) (rest : List (String × α)) (k : String) :
    mapGet ((k1, v1) :: rest) k = if k1 = k then some v1 else mapGet rest k := by
  by_cases h : k1 = k
  · simp [mapGet, List.find?_cons_of_pos, h]
  · simp only [mapGet, List.find?]
    simp [h]

theorem mapGet_mapSet_self {α : Type} (l : List (String × α)) (k : String) (v : α) :
    mapGet (mapSet l k v) k = some v := by
  induction l with
  | nil => simp [mapSet, mapGet_cons]
  | cons p rest ih =>
    obtain ⟨k1, v1⟩ := p
    by_cases h : k1 = k
    · simp [mapSet, h, mapGet_cons]
    · simp [mapSet, h, mapGet_cons, ih]

theorem mapGet_mapSet_ne {α : Type} (l : List (String × α)) (k k1 : String) (v : α)
    (h : ¬ k1 = k) : mapGet (mapSet l k v) k1 = mapGet l k1 := by
  have h' : ¬ k = k1 := fun hk => h hk.symm
  induction l with
  | nil => simp [mapSet, mapGet_cons, mapGet_nil, h']
  | cons p rest ih =>
    obtain ⟨k2, v2⟩ := p
    by_cases h2 : k2 = k
    · subst h2
      simp [mapSet, mapGet_cons, h']
    · simp [mapSet, h2, mapGet_cons, ih]

theorem mapSet_eq_of_mapGet {α : Type} (l : List (String × α)) (k : String) (v : α)
    (h : mapGet l k = some v) : mapSet l k v = l := by
  induction l with
  | nil => simp [mapGet_nil] at h
  | cons p rest ih =>
    obtain ⟨k1, v1⟩ := p
    rw [mapGet_cons] at h
    by_cases h1 : k1 = k
    · subst h1
      simp at h
      simp [mapSet, h]
    · simp [h1] at h
      simp [mapSet, h1, ih h]

theorem mem_mapSet_elim {α : Type} (l : List (String × α)) (k : String) (v : α)
    (p : String × α) (h : p ∈ mapSet l k v) : p = (k, v) ∨ p ∈ l := by
  induction l with
  | nil => simp [mapSet] at h; simp [h]
  | cons q rest ih =>
    obtain ⟨k1, v1⟩ := q
    by_cases h1 : k1 = k
    · simp [mapSet, h1] at h
      rcases h with h | h
      · left; simp [h]
      · right; simp [h]
    · simp [mapSet, h1] at h
      rcases h with h | h
      · right; simp [h]
      · rcases ih h with h2 | h2
        · left; exact h2
        · right; simp [h2]

theorem mem_mapDelete_elim {α : Type} (l : List (String × α)) (k : String)
    (p : String × α) (h : p ∈ mapDelete l k) : p ∈ l := by
  induction l with
  | nil => simp [mapDelete] at h
  | cons q rest ih =>
    obtain ⟨k1, v1⟩ := q
    by_cases h1 : k1 = k
    · simp [mapDelete, h1] at h
      simp [h]
    · simp [mapDelete, h1] at h
      rcases h with h | h
      · simp [h]
      · simp [ih h]

/- =========================
   Comparator lemmas
========================= -/

theorem memberCmp_le_zero_iff (a b : Member) :
    memberCmp a b ≤ 0 ↔
      (a.joinOrder < b.joinOrder ∨
        (a.joinOrder = b.joinOrder ∧ jsHash a.deviceId ≤ jsHash b.deviceId)) := by
  unfold memberCmp
  split <;> omega

instance : IsTotal Member memberLe where
  total a b := by
    have h1 := memberCmp_le_zero_iff a b
    have h2 := memberCmp_le_zero_iff b a
    unfold memberLe
    omega

instance : IsTrans Member memberLe where
  trans a b c := by
    have h1 := memberCmp_le_zero_iff a b
    have h2 := memberCmp_le_zero_iff b c
    have h3 := memberCmp_le_zero_iff a c
    unfold memberLe
    omega

theorem memberLe_refl (a : Member) : memberLe a a := by
  have h := memberCmp_le_zero_iff a a
  unfold memberLe
  omega

/-- The head of the stable sort is a member of the input list and sorts
no later than every element of the input. -/
theorem sortMembers_head_min (ms : List Member) (e : Member) (rest : List Member)
    (h : sortMembers ms = e :: rest) :
    e ∈ ms ∧ ∀ m ∈ ms, memberLe e m := by
  have hperm : List.Perm (sortMembers ms) ms := List.perm_insertionSort memberLe ms
  constructor
  · exact hperm.mem_iff.mp (by simp [h])
  · intro m hm
    have hm2 : m ∈ sortMembers ms := hperm.mem_iff.mpr hm
    rw [h] at hm2
    rcases List.mem_cons.mp hm2 with h2 | h2
    · subst h2; exact memberLe_refl _
    · have hs : List.Sorted memberLe (sortMembers ms) :=
        List.sorted_insertionSort memberLe ms
      rw [h] at hs
      exact List.rel_of_sorted_cons hs m h2

/- =========================
   Claim C1: election agreement and determinism
========================= -/

/-- C1: for every member list, the coordinator-side election electNewHost and
the peer-side election runLeaderElection select the same deviceId: that of a
member minimal under (joinOrder ascending, then the deterministic 32-bit
string hash of deviceId ascending).  Both are pure functions of the member
list, so for a fixed snapshot the elected deviceId is the same regardless of
which peer computes it. -/
theorem election_agreement (mgr : RoomManager) (roomId : String) (room : Room)
    (snap : SnapshotState)
    (hroom : mapGet mgr.rooms roomId = some room)
    (hmem : snap.room.members = room.members)
    (hne : ¬ room.members = []) :
    ∃ e : Member, e ∈ room.members ∧
      electNewHost mgr roomId = Except.ok e.deviceId ∧
      runLeaderElection (some snap) = some (e.deviceId, e.clientId) ∧
      ∀ m ∈ room.members, memberLe e m := by
  cases hsort : sortMembers room.members with
  | nil =>
    exfalso
    have hperm := List.perm_insertionSort memberLe room.members
    rw [show List.insertionSort memberLe room.members = sortMembers room.members from rfl,
        hsort] at hperm
    exact hne hperm.symm.eq_nil
  | cons e rest =>
    obtain ⟨hmemE, hmin⟩ := sortMembers_head_min room.members e rest hsort
    refine ⟨e, hmemE, ?_, ?_, hmin⟩
    · simp [electNewHost, hroom, hsort]
    · simp [runLeaderElection, hmem, hsort]

def wRoomC1 : Room :=
  { roomId := ("r1"), joinCode := ("CODE01"), hostDeviceId := ("A")
    members := [{ deviceId := ("A"), clientId := ("c1"), name := ("Alice")
                  joinOrder := 0, role := .host },
                { deviceId := ("B"), clientId := ("c2"), name := ("Bob")
                  joinOrder := 1, role := .member }]
    chat := [] }

def wMgrC1 : RoomManager :=
  { rooms := [(("r1"), wRoomC1)], joinCodeToRoomId := [(("CODE01"), ("r1"))]
    globalJoinCounter := 2 }

def wSnapC1 : SnapshotState :=
  { room := { roomId := ("r1"), joinCode := ("CODE01"), hostDeviceId := ("A")
              members := wRoomC1.members }
    chat := [], identity := ⟨[], []⟩ }

/-- Witness for C1 at a concrete two-member room. -/
theorem election_agreement_witness :
    ∃ e : Member, e ∈ wRoomC1.members ∧
      electNewHost wMgrC1 ("r1") = Except.ok e.deviceId ∧
      runLeaderElection (some wSnapC1) = some (e.deviceId, e.clientId) ∧
      ∀ m ∈ wRoomC1.members, memberLe e m :=
  election_agreement wMgrC1 ("r1") wRoomC1 wSnapC1 rfl rfl (by decide)

/- =========================
   Claim C4: appendChat
========================= -/

/-- Pushing onto a buffer of at most 50 entries and then dropping the head
when the length exceeds 50 drops the oldest entry exactly when the buffer
was already full. -/
theorem chatPush (chat : List ChatMessage) (msg : ChatMessage) (hlen : chat.length ≤ 50) :
    (if (chat ++ [msg]).length > 50 then (chat ++ [msg]).tail else chat ++ [msg]) =
      (if chat.length = 50 then chat.tail else chat) ++ [msg] := by
  by_cases h50 : chat.length = 50
  · have hgt : (chat ++ [msg]).length > 50 := by simp [h50]
    rw [if_pos hgt, if_pos h50]
    cases chat with
    | nil => simp at h50
    | cons c cs => simp
  · have hngt : ¬ (chat ++ [msg]).length > 50 := by
      simp
      omega
    rw [if_neg hngt, if_neg h50]

/-- The pushed buffer stays within the 50-entry capacity. -/
theorem chatPushLen (chat : List ChatMessage) (msg : ChatMessage) (hlen : chat.length ≤ 50) :
    ((if chat.length = 50 then chat.tail else chat) ++ [msg]).length ≤ 50 := by
  by_cases h50 : chat.length = 50
  · simp [h50]
  · simp [h50]
    omega

/-- C4: for every room and every sender deviceId that is a current member,
appendChat appends exactly one new entry at the tail of the chat buffer,
with fromName stamped from the sender's current name, and drops exactly the
oldest entry exactly when the buffer was already full; the resulting buffer
length is at most 50. -/
theorem appendChat_spec (mgr : RoomManager) (roomId fromDeviceId text : String) (now : Nat)
    (room : Room) (sender : Member)
    (hroom : mapGet mgr.rooms roomId = some room)
    (hsender : room.members.find? (fun m => m.deviceId = fromDeviceId) = some sender)
    (hlen : room.chat.length ≤ 50) :
    (appendChat mgr roomId fromDeviceId text now).1 =
      .ok { fromDeviceId := fromDeviceId, fromName := sender.name, text := text
            timestamp := now } ∧
    (appendChat mgr roomId fromDeviceId text now).2 =
      { mgr with rooms := (mapSet mgr.rooms roomId
          { room with chat :=
              (if room.chat.length = 50 then room.chat.tail else room.chat) ++
                [{ fromDeviceId := fromDeviceId, fromName := sender.name, text := text
                   timestamp := now }] }) } ∧
    ((if room.chat.length = 50 then room.chat.tail else room.chat) ++
        [({ fromDeviceId := fromDeviceId, fromName := sender.name, text := text
            timestamp := now } : ChatMessage)]).length ≤ 50 := by
  unfold appendChat
  simp only [hroom, hsender]
  refine ⟨trivial, ?_, chatPushLen room.chat _ hlen⟩
  rw [chatPush room.chat _ hlen]

def wMgrC4 : RoomManager :=
  { rooms := [(("r4"),
      { roomId := ("r4"), joinCode := ("CODE04"), hostDeviceId := ("A")
        members := [{ deviceId := ("A"), clientId := ("c1"), name := ("Alice")
                      joinOrder := 0, role := .host }]
        chat := [{ fromDeviceId := ("A"), fromName := ("Alice"), text := ("hello")
                   timestamp := 1 }] })]
    joinCodeToRoomId := [(("CODE04"), ("r4"))], globalJoinCounter := 1 }

/-- Witness for C4 at a concrete one-member room with one buffered entry. -/
theorem appendChat_spec_witness :
    (appendChat wMgrC4 ("r4") ("A") ("hi") 7).1 =
      .ok { fromDeviceId := ("A"), fromName := ("Alice"), text := ("hi"), timestamp := 7 } ∧
    (appendChat wMgrC4 ("r4") ("A") ("hi") 7).2 =
      { wMgrC4 with rooms := (mapSet wMgrC4.rooms ("r4")
          { roomId := ("r4"), joinCode := ("CODE04"), hostDeviceId := ("A")
            members := [{ deviceId := ("A"), clientId := ("c1"), name := ("Alice")
                          joinOrder := 0, role := .host }]
            chat := (if ([({ fromDeviceId := ("A"), fromName := ("Alice"), text := ("hello")
                             timestamp := 1 } : ChatMessage)]).length = 50
                     then ([({ fromDeviceId := ("A"), fromName := ("Alice"), text := ("hello")
                               timestamp := 1 } : ChatMessage)]).tail
                     else [({ fromDeviceId := ("A"), fromName := ("Alice"), text := ("hello")
                              timestamp := 1 } : ChatMessage)]) ++
              [{ fromDeviceId := ("A"), fromName := ("Alice"), text := ("hi")
                 timestamp := 7 }] }) } ∧
    ((if ([({ fromDeviceId := ("A"), fromName := ("Alice"), text := ("hello")
              timestamp := 1 } : ChatMessage)]).length = 50
      then ([({ fromDeviceId := ("A"), fromName := ("Alice"), text := ("hello")
                timestamp := 1 } : ChatMessage)]).tail
      else [({ fromDeviceId := ("A"), fromName := ("Alice"), text := ("hello")
               timestamp := 1 } : ChatMessage)]) ++
        [({ fromDeviceId := ("A"), fromName := ("Alice"), text := ("hi")
            timestamp := 7 } : ChatMessage)]).length ≤ 50 :=
  appendChat_spec wMgrC4 ("r4") ("A") ("hi") 7 _ _ rfl rfl (by decide)

/- =========================
   Claim C10: kick with an absent target
========================= -/

/-- C10: kick called by the room's current host with a target deviceId that
is not a member returns successfully and leaves the entire manager state,
hence the room's member list, hostDeviceId, joinCode and chat buffer,
unchanged. -/
theorem kick_absent_target (mgr : RoomManager) (hostId targetId key : String) (room : Room)
    (hfind : findRoomEntryByDevice mgr hostId = some (key, room))
    (hhost : room.hostDeviceId = hostId)
    (hget : mapGet mgr.rooms key = some room)
    (habsent : room.members.all (fun m => ¬ m.deviceId = targetId) = true) :
    kick mgr hostId targetId = (.ok room, mgr) := by
  unfold kick
  simp only [hfind]
  have hfilter : room.members.filter (fun m => ¬ m.deviceId = targetId) = room.members :=
    List.filter_eq_self.mpr (fun m hm => by
      have := List.all_eq_true.mp habsent m hm
      simpa using this)
  rw [if_neg (by simp [hhost])]
  rw [hfilter]
  have heta : ({ room with members := room.members } : Room) = room := rfl
  rw [heta, mapSet_eq_of_mapGet mgr.rooms key room hget]

def wMgrC10 : RoomManager :=
  { rooms := [(("r0"),
      { roomId := ("r0"), joinCode := ("CODE00"), hostDeviceId := ("H")
        members := [{ deviceId := ("H"), clientId := ("c1"), name := ("Host")
                      joinOrder := 0, role := .host },
                    { deviceId := ("M"), clientId := ("c2"), name := ("Mem")
                      joinOrder := 1, role := .member }]
        chat := [] })]
    joinCodeToRoomId := [(("CODE00"), ("r0"))], globalJoinCounter := 2 }

def wRoomC10 : Room :=
  { roomId := ("r0"), joinCode := ("CODE00"), hostDeviceId := ("H")
    members := [{ deviceId := ("H"), clientId := ("c1"), name := ("Host")
                  joinOrder := 0, role := .host },
                { deviceId := ("M"), clientId := ("c2"), name := ("Mem")
                  joinOrder := 1, role := .member }]
    chat := [] }

/-- Witness for C10: the host kicks an absent deviceId and nothing changes. -/
theorem kick_absent_target_witness :
    kick wMgrC10 ("H") ("Z") = (.ok wRoomC10, wMgrC10) :=
  kick_absent_target wMgrC10 ("H") ("Z") ("r0") wRoomC10 rfl rfl rfl (by decide)

/- =========================
   Claim C6: frame decoding failures
========================= -/

def ceFrameBadPayload : JsonVal :=
  .obj [(("type"), .str ("PING")), (("requestId"), .str ("r1")),
        (("clientId"), .str ("c1")), (("payload"), .str ("oops"))]

def ceFrameNoClientId : JsonVal :=
  .obj [(("type"), .str ("PING")), (("requestId"), .str ("r1")),
        (("payload"), .obj [])]

/-- C6 counterexample: the claim's failure set is wrong in both directions.
A frame whose payload is a non-object string but whose clientId is a string
decodes successfully even though the claim calls it malformed, and a frame
with everything the claim requires but no clientId is rejected even though
the claim says it decodes. -/
theorem parse_payload_clientId_divergence :
    (specMalformed ceFrameBadPayload = true ∧
      parseIncomingMessage ceFrameBadPayload = some ceFrameBadPayload) ∧
    (specMalformed ceFrameNoClientId = false ∧
      parseIncomingMessage ceFrameNoClientId = none) :=
  ⟨⟨rfl, rfl⟩, ⟨rfl, rfl⟩⟩

/-- C6 (amended): parseIncomingMessage fails exactly when the input is not
an object, or its type field is not one of the recognized frame types, or
its requestId is not a string, or its clientId is not a string; the payload
field is never inspected.  On success it returns the input value itself. -/
theorem parseIncomingMessage_spec (v : JsonVal) :
    parseIncomingMessage v = if wellFormedFrame v then some v else none := by
  unfold parseIncomingMessage wellFormedFrame
  by_cases h1 : isNonNullObject v
  · by_cases h2 : isValidTypeField (getField v ("type"))
    · by_cases h3 : isStringVal (getField v ("requestId"))
      · by_cases h4 : isStringVal (getField v ("clientId"))
        · simp [h1, h2, h3, h4]
        · simp [h1, h2, h3, h4]
      · simp [h1, h2, h3]
    · simp [h1, h2]
  · simp [h1]

/- =========================
   Claim C9: heartbeat loop and activity refresh
========================= -/

/-- C9 counterexample: an incoming frame that fails to decode does not
refresh lastActiveTime; the handler sends an error and returns before
updateLastSeen is called. -/
theorem activity_decode_failure_counterexample :
    parseIncomingMessage (JsonVal.num 3) = none ∧
    handleFrameActivity { clientId := ("c1"), lastActiveTime := 5 } (JsonVal.num 3) 100 =
      { clientId := ("c1"), lastActiveTime := 5 } ∧
    ¬ (handleFrameActivity { clientId := ("c1"), lastActiveTime := 5 }
        (JsonVal.num 3) 100).lastActiveTime = 100 :=
  ⟨rfl, rfl, by decide⟩

/-- C9 (amended): each heartbeat tick closes, with reason Heartbeat
timeout, exactly those connections whose silence strictly exceeds 15000 ms
and sends a PING to every other; an incoming frame refreshes the
connection's lastActiveTime exactly when it decodes successfully, and
leaves it unchanged when decoding fails. -/
theorem heartbeat_and_activity_spec (now : Nat) (clients : List (String × ClientConn))
    (conn : ClientConn) (raw : JsonVal) (nowF : Nat) :
    heartbeatTick now clients =
      (clients.filter (fun p => decide (now - p.2.lastActiveTime ≤ 15000)),
       clients.map (fun p =>
         if now - p.2.lastActiveTime > 15000 then HBAction.close p.1 ("Heartbeat timeout")
         else HBAction.ping p.1)) ∧
    handleFrameActivity conn raw nowF =
      (if (parseIncomingMessage raw).isSome then { conn with lastActiveTime := nowF }
       else conn) := by
  constructor
  · induction clients with
    | nil => rfl
    | cons p rest ih =>
      obtain ⟨cid, c⟩ := p
      by_cases h : now - c.lastActiveTime > 15000
      · simp [heartbeatTick, ih, h, List.filter_cons]
        rw [if_neg (by omega)]
      · simp [heartbeatTick, ih, h, List.filter_cons]
        rw [if_pos (by omega)]
  · unfold handleFrameActivity
    cases hp : parseIncomingMessage raw with
    | none => simp [hp]
    | some m => simp [hp]

/- =========================
   Claim C5: joinRoomByCode failure characterization
========================= -/

theorem mem_of_mapGet {α : Type} (l : List (String × α)) (k : String) (v : α)
    (h : mapGet l k = some v) : (k, v) ∈ l := by
  induction l with
  | nil => simp [mapGet_nil] at h
  | cons p rest ih =>
    obtain ⟨k1, v1⟩ := p
    rw [mapGet_cons] at h
    by_cases h1 : k1 = k
    · subst h1
      rw [if_pos rfl] at h
      simp at h
      simp [h]
    · rw [if_neg h1] at h
      simp [ih h]

/-- Every live join code resolves to an existing room; this is the Map
consistency that normal operation maintains (room ids are freshly
generated) and under which the non-null assertion in joinRoomByCode is
sound. -/
def codesConsistent (mgr : RoomManager) : Bool :=
  mgr.joinCodeToRoomId.all (fun p => (mapGet mgr.rooms p.2).isSome)

/-- C5: when every join code maps to a live room, joinRoomByCode fails with
INVALID_JOIN_CODE exactly when the code is unknown, fails with
NAME_CONFLICT exactly when the code resolves to a room already containing
the (case-sensitively equal) name, and every failure leaves the manager
state, hence member lists, chat buffers and join-code tables, unchanged. -/
theorem joinRoomByCode_errors (mgr : RoomManager) (joinCode deviceId clientId name : String)
    (hcons : codesConsistent mgr = true) :
    ((joinRoomByCode mgr joinCode deviceId clientId name).1 =
        .error .INVALID_JOIN_CODE ↔ mapGet mgr.joinCodeToRoomId joinCode = none) ∧
    ((joinRoomByCode mgr joinCode deviceId clientId name).1 =
        .error .NAME_CONFLICT ↔
      ∃ roomId room, mapGet mgr.joinCodeToRoomId joinCode = some roomId ∧
        mapGet mgr.rooms roomId = some room ∧
        room.members.any (fun m => m.name = name) = true) ∧
    (∀ e, (joinRoomByCode mgr joinCode deviceId clientId name).1 = .error e →
      (joinRoomByCode mgr joinCode deviceId clientId name).2 = mgr) := by
  cases hjc : mapGet mgr.joinCodeToRoomId joinCode with
  | none =>
    refine ⟨by simp [joinRoomByCode, hjc], ?_, ?_⟩
    · simp [joinRoomByCode, hjc]
    · intro e _
      simp [joinRoomByCode, hjc]
  | some roomId =>
    have hmem := mem_of_mapGet mgr.joinCodeToRoomId joinCode roomId hjc
    have hsome := List.all_eq_true.mp hcons (joinCode, roomId) hmem
    simp only [Option.isSome_iff_exists] at hsome
    obtain ⟨room, hroom⟩ := hsome
    by_cases hname : room.members.any (fun m => m.name = name) = true
    · refine ⟨by simp [joinRoomByCode, hjc, hroom, hname], ?_, ?_⟩
      · constructor
        · intro _
          exact ⟨roomId, room, rfl, hroom, hname⟩
        · intro _
          simp [joinRoomByCode, hjc, hroom, hname]
      · intro e _
        simp [joinRoomByCode, hjc, hroom, hname]
    · have hnameF : (room.members.any (fun m => m.name = name)) = false :=
        Bool.eq_false_iff.mpr hname
      refine ⟨by simp [joinRoomByCode, hjc, hroom, hnameF], ?_, ?_⟩
      · constructor
        · intro hcontra
          simp [joinRoomByCode, hjc, hroom, hnameF] at hcontra
        · rintro ⟨roomId2, room2, hjc2, hroom2, hname2⟩
          simp at hjc2
          subst hjc2
          rw [hroom] at hroom2
          simp at hroom2
          subst hroom2
          exact absurd hname2 hname
      · intro e hcontra
        simp [joinRoomByCode, hjc, hroom, hnameF] at hcontra

def wMgrC5 : RoomManager :=
  { rooms := [(("r5"),
      { roomId := ("r5"), joinCode := ("CODE05"), hostDeviceId := ("A")
        members := [{ deviceId := ("A"), clientId := ("c1"), name := ("Alice")
                      joinOrder := 0, role := .host }]
        chat := [] })]
    joinCodeToRoomId := [(("CODE05"), ("r5"))], globalJoinCounter := 1 }

/-- Witness for C5 at a concrete manager and a duplicate name. -/
theorem joinRoomByCode_errors_witness :
    ((joinRoomByCode wMgrC5 ("CODE05") ("B") ("c2") ("Alice")).1 =
        .error .INVALID_JOIN_CODE ↔ mapGet wMgrC5.joinCodeToRoomId ("CODE05") = none) ∧
    ((joinRoomByCode wMgrC5 ("CODE05") ("B") ("c2") ("Alice")).1 =
        .error .NAME_CONFLICT ↔
      ∃ roomId room, mapGet wMgrC5.joinCodeToRoomId ("CODE05") = some roomId ∧
        mapGet wMgrC5.rooms roomId = some room ∧
        room.members.any (fun m => m.name = ("Alice")) = true) ∧
    (∀ e, (joinRoomByCode wMgrC5 ("CODE05") ("B") ("c2") ("Alice")).1 = .error e →
      (joinRoomByCode wMgrC5 ("CODE05") ("B") ("c2") ("Alice")).2 = wMgrC5) :=
  joinRoomByCode_errors wMgrC5 ("CODE05") ("B") ("c2") ("Alice") (by decide)

/- =========================
   Claim C7: snapshot round-trip
========================= -/

theorem mapGet_none_of_forall {α : Type} (l : List (String × α)) (k : String)
    (h : ∀ p ∈ l, ¬ p.1 = k) : mapGet l k = none := by
  induction l with
  | nil => rfl
  | cons p rest ih =>
    obtain ⟨k1, v1⟩ := p
    rw [mapGet_cons, if_neg (h (k1, v1) (by simp))]
    exact ih (fun q hq => h q (by simp [hq]))

theorem mapSet_of_mapGet_none {α : Type} (l : List (String × α)) (k : String) (v : α)
    (h : mapGet l k = none) : mapSet l k v = l ++ [(k, v)] := by
  induction l with
  | nil => rfl
  | cons p rest ih =>
    obtain ⟨k1, v1⟩ := p
    rw [mapGet_cons] at h
    by_cases h1 : k1 = k
    · rw [if_pos h1] at h
      simp at h
    · rw [if_neg h1] at h
      simp [mapSet, h1, ih h]

theorem mapGet_append_of_none {α : Type} (l1 l2 : List (String × α)) (k : String)
    (h : mapGet l1 k = none) : mapGet (l1 ++ l2) k = mapGet l2 k := by
  induction l1 with
  | nil => rfl
  | cons p rest ih =>
    obtain ⟨k1, v1⟩ := p
    rw [mapGet_cons] at h
    by_cases h1 : k1 = k
    · rw [if_pos h1] at h
      simp at h
    · rw [if_neg h1] at h
      rw [List.cons_append, mapGet_cons, if_neg h1]
      exact ih h

/-- Rebuilding a record by keyed assignment over members with pairwise
distinct deviceIds produces exactly the member-order association list. -/
theorem foldl_mapSet_eq_map (ms : List Member) (f : Member → String)
    (acc : List (String × String))
    (hfresh : ∀ m ∈ ms, mapGet acc m.deviceId = none)
    (hnd : (ms.map Member.deviceId).Nodup) :
    ms.foldl (fun acc2 m => mapSet acc2 m.deviceId (f m)) acc =
      acc ++ ms.map (fun m => (m.deviceId, f m)) := by
  induction ms generalizing acc with
  | nil => simp
  | cons m rest ih =>
    rw [show List.map Member.deviceId (m :: rest) =
          m.deviceId :: rest.map Member.deviceId from rfl] at hnd
    have hnotmem : m.deviceId ∉ rest.map Member.deviceId := (List.nodup_cons.mp hnd).1
    have hndrest : (rest.map Member.deviceId).Nodup := (List.nodup_cons.mp hnd).2
    have hf2 : ∀ m2 ∈ rest, mapGet (acc ++ [(m.deviceId, f m)]) m2.deviceId = none := by
      intro m2 hm2
      rw [mapGet_append_of_none _ _ _ (hfresh m2 (by simp [hm2]))]
      refine mapGet_none_of_forall _ _ ?_
      intro p hp
      simp at hp
      subst hp
      simp
      intro hcontra
      exact hnotmem (by rw [hcontra]; exact List.mem_map_of_mem Member.deviceId hm2)
    rw [List.foldl_cons,
        mapSet_of_mapGet_none acc m.deviceId (f m) (hfresh m (by simp)),
        ih _ hf2 hndrest]
    simp

/-- C7: for every snapshot whose two identity tables exactly mirror its
member list, restoring a coordinator's room model from the snapshot and
taking makeSnapshot of the restored room yields the snapshot back,
structurally equal over room identity, member list, chat buffer and both
identity tables. -/
theorem snapshot_roundtrip (mgr : RoomManager) (snap : SnapshotState)
    (hC : snap.identity.deviceIdToClientId =
      snap.room.members.map (fun m => (m.deviceId, m.clientId)))
    (hN : snap.identity.deviceIdToName =
      snap.room.members.map (fun m => (m.deviceId, m.name)))
    (hnd : (snap.room.members.map Member.deviceId).Nodup) :
    makeSnapshot (restoreFromSnapshot snap mgr) snap.room.roomId = .ok snap := by
  unfold restoreFromSnapshot restoreRoomFromSnapshot makeSnapshot
  simp only [mapGet_mapSet_self]
  rw [foldl_mapSet_eq_map _ _ [] (by simp [mapGet_nil]) hnd,
      foldl_mapSet_eq_map _ _ [] (by simp [mapGet_nil]) hnd]
  rw [List.nil_append, List.nil_append, ← hC, ← hN]

def wSnapC7 : SnapshotState :=
  { room := { roomId := ("r7"), joinCode := ("CODE07"), hostDeviceId := ("A")
              members := [{ deviceId := ("A"), clientId := ("c1"), name := ("Alice")
                            joinOrder := 0, role := .host },
                          { deviceId := ("B"), clientId := ("c2"), name := ("Bob")
                            joinOrder := 1, role := .member }] }
    chat := [{ fromDeviceId := ("B"), fromName := ("Bob"), text := ("hi"), timestamp := 3 }]
    identity := { deviceIdToClientId := [(("A"), ("c1")), (("B"), ("c2"))]
                  deviceIdToName := [(("A"), ("Alice")), (("B"), ("Bob"))] } }

/-- Witness for C7 at a concrete mirrored snapshot restored into an empty
manager. -/
theorem snapshot_roundtrip_witness :
    makeSnapshot (restoreFromSnapshot wSnapC7 RoomManager.empty) wSnapC7.room.roomId =
      .ok wSnapC7 :=
  snapshot_roundtrip RoomManager.empty wSnapC7 rfl rfl (by decide)

/- =========================
   Claim C8: discovery deduplication
========================= -/

theorem orO_none_right (a : Option DiscoveredHost) : orO a none = a := by
  cases a <;> rfl

theorem firstWithKey_append (k : String) (l1 l2 : List TDatagram) :
    firstWithKey k (l1 ++ l2) = orO (firstWithKey k l1) (firstWithKey k l2) := by
  induction l1 with
  | nil => simp [firstWithKey, orO]
  | cons td rest ih =>
    rw [List.cons_append]
    cases hp : parseAnnounce td with
    | none => simpa [firstWithKey, hp] using ih
    | some h =>
      by_cases hk : hostKey h = k
      · simp [firstWithKey, hp, hk, orO]
      · simp [firstWithKey, hp, hk, ih]

theorem lastWithKey_cons (k : String) (td : TDatagram) (rest : List TDatagram) :
    lastWithKey k (td :: rest) = orO (lastWithKey k rest) (firstWithKey k [td]) := by
  unfold lastWithKey
  rw [List.reverse_cons, firstWithKey_append]

/-- Full characterization of a discovery session started from an arbitrary
table: every callback is for a key unknown at session start and carries the
parse of the first datagram with that key; callback keys are pairwise
distinct; and the final table holds, per key, the parse of the last
datagram with that key. -/
theorem runDiscovery_characterization (ds : List TDatagram)
    (st : List (String × DiscoveredHost)) :
    (∀ h ∈ (runDiscovery st ds).2,
        mapGet st (hostKey h) = none ∧ firstWithKey (hostKey h) ds = some h) ∧
    ((runDiscovery st ds).2.map hostKey).Nodup ∧
    (∀ k, mapGet (runDiscovery st ds).1 k = orO (lastWithKey k ds) (mapGet st k)) := by
  induction ds generalizing st with
  | nil =>
    refine ⟨by simp [runDiscovery], by simp [runDiscovery], fun k => ?_⟩
    simp [runDiscovery, lastWithKey, firstWithKey, orO]
  | cons td rest ih =>
    cases hp : parseAnnounce td with
    | none =>
      have hrun : runDiscovery st (td :: rest) = runDiscovery st rest := by
        simp [runDiscovery, handleMessage, hp]
      have hfk : ∀ k, firstWithKey k (td :: rest) = firstWithKey k rest := by
        intro k
        simp [firstWithKey, hp]
      have hlk : ∀ k, lastWithKey k (td :: rest) = lastWithKey k rest := by
        intro k
        rw [lastWithKey_cons]
        simp [firstWithKey, hp, orO_none_right]
      obtain ⟨ih1, ih2, ih3⟩ := ih st
      rw [hrun]
      refine ⟨fun h hm => ⟨(ih1 h hm).1, by rw [hfk]; exact (ih1 h hm).2⟩, ih2, fun k => ?_⟩
      rw [hlk k]
      exact ih3 k
    | some h0 =>
      have hfk : ∀ k, firstWithKey k (td :: rest) =
          if hostKey h0 = k then some h0 else firstWithKey k rest := by
        intro k
        simp [firstWithKey, hp]
      have hlk : ∀ k, lastWithKey k (td :: rest) =
          orO (lastWithKey k rest) (if hostKey h0 = k then some h0 else none) := by
        intro k
        rw [lastWithKey_cons]
        simp [firstWithKey, hp]
      have hfinal : ∀ k, mapGet (runDiscovery (mapSet st (hostKey h0) h0) rest).1 k =
          orO (lastWithKey k (td :: rest)) (mapGet st k) := by
        intro k
        obtain ⟨_, _, ih3⟩ := ih (mapSet st (hostKey h0) h0)
        rw [ih3 k, hlk k]
        by_cases hk : hostKey h0 = k
        · subst hk
          rw [mapGet_mapSet_self, if_pos rfl]
          cases lastWithKey (hostKey h0) rest <;> simp [orO]
        · rw [mapGet_mapSet_ne st (hostKey h0) k h0 (fun hc => hk hc.symm), if_neg hk,
              orO_none_right]
      have htail : ∀ h ∈ (runDiscovery (mapSet st (hostKey h0) h0) rest).2,
          (mapGet st (hostKey h) = none ∧ ¬ hostKey h = hostKey h0) ∧
            firstWithKey (hostKey h) (td :: rest) = some h := by
        intro h hm
        obtain ⟨ih1, _, _⟩ := ih (mapSet st (hostKey h0) h0)
        obtain ⟨hnone, hfirst⟩ := ih1 h hm
        have hne : ¬ hostKey h = hostKey h0 := by
          intro hcontra
          rw [hcontra, mapGet_mapSet_self] at hnone
          simp at hnone
        refine ⟨⟨?_, hne⟩, ?_⟩
        · rw [← mapGet_mapSet_ne st (hostKey h0) (hostKey h) h0 hne]
          exact hnone
        · rw [hfk, if_neg (fun hc => hne hc.symm)]
          exact hfirst
      by_cases hknown : (mapGet st (hostKey h0)).isSome
      · have hrun : runDiscovery st (td :: rest) =
            runDiscovery (mapSet st (hostKey h0) h0) rest := by
          simp [runDiscovery, handleMessage, hp, hknown]
        obtain ⟨_, ih2, _⟩ := ih (mapSet st (hostKey h0) h0)
        rw [hrun]
        exact ⟨fun h hm => ⟨((htail h hm).1).1, (htail h hm).2⟩, ih2, hfinal⟩
      · have hnone0 : mapGet st (hostKey h0) = none := by
          cases hm : mapGet st (hostKey h0)
          · rfl
          · rw [hm] at hknown
            simp at hknown
        have hrun : runDiscovery st (td :: rest) =
            ((runDiscovery (mapSet st (hostKey h0) h0) rest).1,
             h0 :: (runDiscovery (mapSet st (hostKey h0) h0) rest).2) := by
          simp [runDiscovery, handleMessage, hp, hknown]
        obtain ⟨_, ih2, _⟩ := ih (mapSet st (hostKey h0) h0)
        rw [hrun]
        refine ⟨?_, ?_, hfinal⟩
        · intro h hm
          simp only [List.mem_cons] at hm
          rcases hm with hm | hm
          · subst hm
            exact ⟨hnone0, by rw [hfk, if_pos rfl]⟩
          · exact ⟨((htail h hm).1).1, (htail h hm).2⟩
        · simp only [List.map_cons]
          rw [List.nodup_cons]
          refine ⟨?_, ih2⟩
          intro hcontra
          simp only [List.mem_map] at hcontra
          obtain ⟨h, hm, hkeq⟩ := hcontra
          exact ((htail h hm).1).2 hkeq

/-- C8 (amended): within one discovery session the callback fires at most
once per (ip, port) key and exactly at the first well-formed datagram
carrying that key; a datagram whose first token is not LANFORGE_HOST,
whose field count is insufficient, or whose port field does not parse is
ignored entirely (no callback, no table change); and a well-formed
datagram whose key is already known fires no callback and replaces that
key's stored entry with the freshly parsed one (refreshing lastSeen and
overwriting the other stored fields). -/
theorem discovery_session_spec (ds : List TDatagram) :
    (∀ st td, parseAnnounce td = none → handleMessage st td = (st, none)) ∧
    (∀ st td h, parseAnnounce td = some h → (mapGet st (hostKey h)).isSome →
      handleMessage st td = (mapSet st (hostKey h) h, none)) ∧
    (((runDiscovery [] ds).2.map hostKey).Nodup) ∧
    (∀ h ∈ (runDiscovery [] ds).2, firstWithKey (hostKey h) ds = some h) ∧
    (∀ k, mapGet (runDiscovery [] ds).1 k = lastWithKey k ds) := by
  obtain ⟨h1, h2, h3⟩ := runDiscovery_characterization ds []
  refine ⟨?_, ?_, h2, fun h hm => (h1 h hm).2, fun k => ?_⟩
  · intro st td hpnone
    simp [handleMessage, hpnone]
  · intro st td h hpsome hknown
    simp [handleMessage, hpsome, hknown]
  · rw [h3 k, mapGet_nil, orO_none_right]

def ceDg1 : TDatagram :=
  { text := ("LANFORGE_HOST r1 CODE01 host1 8080"), srcIp := ("1.2.3.4"), time := 10 }

def ceDg2 : TDatagram :=
  { text := ("LANFORGE_HOST r2 CODE01 host1 8080"), srcIp := ("1.2.3.4"), time := 20 }

/-- C8 counterexample: a second datagram from an already known (ip, port)
key does more than refresh lastSeen; it silently replaces the whole stored
entry, here changing the stored roomId from r1 to r2, while the callback
fires only for the first datagram. -/
theorem discovery_refresh_counterexample :
    (runDiscovery [] [ceDg1, ceDg2]).2.map (fun h => h.roomId) = [("r1")] ∧
    (mapGet (runDiscovery [] [ceDg1, ceDg2]).1 (("1.2.3.4:8080"))).map (fun h => h.roomId) =
      some ("r2") ∧
    (mapGet (runDiscovery [] [ceDg1, ceDg2]).1 (("1.2.3.4:8080"))).map (fun h => h.lastSeen) =
      some 20 :=
  ⟨rfl, rfl, rfl⟩

def wDsC8 : List TDatagram :=
  [{ text := ("garbage datagram"), srcIp := ("9.9.9.9"), time := 1 },
   { text := ("LANFORGE_HOST r8 CODE08 host8 9090"), srcIp := ("5.6.7.8"), time := 2 },
   { text := ("LANFORGE_HOST r8 CODE08 host8 9090"), srcIp := ("5.6.7.8"), time := 3 }]

def wHostC8 : DiscoveredHost :=
  { ip := ("5.6.7.8"), port := 9090, roomId := ("r8"), joinCode := ("CODE08")
    hostId := ("host8"), lastSeen := 2 }

/-- Witness for C8 at a concrete session of three datagrams. -/
theorem discovery_session_spec_witness :
    firstWithKey (hostKey wHostC8) wDsC8 = some wHostC8 :=
  (discovery_session_spec wDsC8).2.2.2.1 wHostC8 (by decide)

/- =========================
   Claim C3: per-room distinctness invariants
========================= -/

/-- The inductive invariant: in every live room every joinOrder is below
the global counter, and the member names and joinOrders are pairwise
distinct. -/
def RoomsOK (mgr : RoomManager) : Prop :=
  ∀ p ∈ mgr.rooms,
    (∀ m ∈ p.2.members, m.joinOrder < mgr.globalJoinCounter) ∧
    (p.2.members.map Member.name).Nodup ∧
    (p.2.members.map Member.joinOrder).Nodup

theorem nodup_concat_of {α : Type} (l : List α) (x : α) (hnd : l.Nodup) (hx : x ∉ l) :
    (l ++ [x]).Nodup := by
  rw [List.nodup_append]
  refine ⟨hnd, List.nodup_singleton x, ?_⟩
  intro a ha hax
  rw [List.mem_singleton] at hax
  subst hax
  exact hx ha

/-- Operations that only drop members (and possibly rewrite roles) preserve
the invariant; formulated through a sublist of the (name, joinOrder)
projection. -/
theorem roomsOK_preserve (mgr mgr1 : RoomManager)
    (hc : mgr1.globalJoinCounter = mgr.globalJoinCounter)
    (hv : ∀ p ∈ mgr1.rooms, ∃ q ∈ mgr.rooms,
        (p.2.members.map (fun m => (m.name, m.joinOrder))).Sublist
          (q.2.members.map (fun m => (m.name, m.joinOrder))))
    (h : RoomsOK mgr) : RoomsOK mgr1 := by
  intro p hp
  obtain ⟨q, hq, hsub⟩ := hv p hp
  obtain ⟨hbound, hnames, hjos⟩ := h q hq
  refine ⟨?_, ?_, ?_⟩
  · intro m hm
    obtain ⟨m2, hm2, hpair⟩ :=
      List.mem_map.mp (hsub.subset (List.mem_map_of_mem _ hm))
    simp only [Prod.mk.injEq] at hpair
    rw [hc, ← hpair.2]
    exact hbound m2 hm2
  · have hs2 : (p.2.members.map Member.name).Sublist (q.2.members.map Member.name) := by
      have := hsub.map Prod.fst
      rw [List.map_map, List.map_map] at this
      exact this
    exact hnames.sublist hs2
  · have hs2 : (p.2.members.map Member.joinOrder).Sublist
        (q.2.members.map Member.joinOrder) := by
      have := hsub.map Prod.snd
      rw [List.map_map, List.map_map] at this
      exact this
    exact hjos.sublist hs2

theorem roomsOK_create (mgr : RoomManager)
    (roomId hostDeviceId hostClientId hostName joinCode : String) (h : RoomsOK mgr) :
    RoomsOK (createRoom mgr roomId hostDeviceId hostClientId hostName joinCode).2 := by
  intro p hp
  unfold createRoom at hp ⊢
  dsimp only at hp ⊢
  rcases mem_mapSet_elim _ _ _ _ hp with heq | hold
  · subst heq
    refine ⟨?_, by simp, by simp⟩
    intro m hm
    simp at hm
    subst hm
    exact Nat.lt_succ_self mgr.globalJoinCounter
  · obtain ⟨hb, hn, hj⟩ := h p hold
    exact ⟨fun m hm => Nat.lt_succ_of_lt (hb m hm), hn, hj⟩

theorem roomsOK_join (mgr : RoomManager) (code d c n : String) (h : RoomsOK mgr) :
    RoomsOK (joinRoomByCode mgr code d c n).2 := by
  cases hjc : mapGet mgr.joinCodeToRoomId code with
  | none =>
    have hstate : (joinRoomByCode mgr code d c n).2 = mgr := by
      simp [joinRoomByCode, hjc]
    rw [hstate]
    exact h
  | some roomId =>
    cases hroom : mapGet mgr.rooms roomId with
    | none =>
      have hstate : (joinRoomByCode mgr code d c n).2 = mgr := by
        simp [joinRoomByCode, hjc, hroom]
      rw [hstate]
      exact h
    | some room =>
      by_cases hname : room.members.any (fun m => m.name = n) = true
      · have hstate : (joinRoomByCode mgr code d c n).2 = mgr := by
          simp [joinRoomByCode, hjc, hroom, hname]
        rw [hstate]
        exact h
      · have hnameF := Bool.eq_false_iff.mpr hname
        have hstate : (joinRoomByCode mgr code d c n).2 =
            { mgr with
              rooms := (mapSet mgr.rooms roomId
                { room with members := room.members ++
                    [{ deviceId := d, clientId := c, name := n
                       joinOrder := mgr.globalJoinCounter, role := .member }] })
              globalJoinCounter := mgr.globalJoinCounter + 1 } := by
          simp [joinRoomByCode, hjc, hroom, hnameF]
        rw [hstate]
        obtain ⟨hbound, hnames, hjos⟩ := h (roomId, room) (mem_of_mapGet _ _ _ hroom)
        intro p hp
        dsimp only at hp ⊢
        rcases mem_mapSet_elim _ _ _ _ hp with heq | hold
        · subst heq
          dsimp only
          refine ⟨?_, ?_, ?_⟩
          · intro m hm
            rw [List.mem_append] at hm
            rcases hm with hm | hm
            · exact Nat.lt_succ_of_lt (hbound m hm)
            · rw [List.mem_singleton] at hm
              subst hm
              exact Nat.lt_succ_self mgr.globalJoinCounter
          · rw [List.map_append]
            refine nodup_concat_of _ _ hnames ?_
            intro hcontra
            obtain ⟨m2, hm2, hname2⟩ := List.mem_map.mp hcontra
            have : room.members.any (fun m => m.name = n) = true :=
              List.any_eq_true.mpr ⟨m2, hm2, by simp [hname2]⟩
            exact hname this
          · rw [List.map_append]
            refine nodup_concat_of _ _ hjos ?_
            intro hcontra
            obtain ⟨m2, hm2, hjo2⟩ := List.mem_map.mp hcontra
            have := hbound m2 hm2
            simp at hjo2
            omega
        · obtain ⟨hb, hn, hj⟩ := h p hold
          exact ⟨fun m hm => Nat.lt_succ_of_lt (hb m hm), hn, hj⟩

theorem leaveRoom_counter (mgr : RoomManager) (d : String) :
    (leaveRoom mgr d).2.globalJoinCounter = mgr.globalJoinCounter := by
  unfold leaveRoom
  split
  · rfl
  · split
    · rfl
    · split
      · split
        · rfl
        · rfl
      · rfl

/-- The (name, joinOrder) projection ignores role rewrites. -/
theorem roleMap_proj (ms : List Member) (hostId : String) :
    ((ms.map (fun m =>
        { m with role := if m.deviceId = hostId then Role.host else Role.member })).map
      (fun m => (m.name, m.joinOrder))) = ms.map (fun m => (m.name, m.joinOrder)) := by
  rw [List.map_map]
  rfl

theorem filter_proj_sublist (ms : List Member) (p : Member → Bool) :
    ((ms.filter p).map (fun m => (m.name, m.joinOrder))).Sublist
      (ms.map (fun m => (m.name, m.joinOrder))) :=
  (List.filter_sublist ms).map _

theorem leaveRoom_rooms_shrink (mgr : RoomManager) (d : String) :
    ∀ p ∈ (leaveRoom mgr d).2.rooms, ∃ q ∈ mgr.rooms,
      (p.2.members.map (fun m => (m.name, m.joinOrder))).Sublist
        (q.2.members.map (fun m => (m.name, m.joinOrder))) := by
  intro p hp
  unfold leaveRoom at hp
  split at hp
  · exact ⟨p, hp, List.Sublist.refl _⟩
  · rename_i kr key room hfind
    have hqmem : (key, room) ∈ mgr.rooms := List.mem_of_find?_eq_some hfind
    split at hp
    · have hp2 := mem_mapDelete_elim _ _ _ hp
      rcases mem_mapSet_elim _ _ _ _ hp2 with heq | hold
      · subst heq
        exact ⟨(key, room), hqmem, filter_proj_sublist room.members _⟩
      · exact ⟨p, hold, List.Sublist.refl _⟩
    · split at hp
      · split at hp
        · rcases mem_mapSet_elim _ _ _ _ hp with heq | hold
          · subst heq
            exact ⟨(key, room), hqmem, filter_proj_sublist room.members _⟩
          · exact ⟨p, hold, List.Sublist.refl _⟩
        · rcases mem_mapSet_elim _ _ _ _ hp with heq | hold
          · subst heq
            refine ⟨(key, room), hqmem, ?_⟩
            dsimp only
            rw [roleMap_proj]
            exact filter_proj_sublist room.members _
          · rcases mem_mapSet_elim _ _ _ _ hold with heq2 | hold2
            · subst heq2
              exact ⟨(key, room), hqmem, filter_proj_sublist room.members _⟩
            · exact ⟨p, hold2, List.Sublist.refl _⟩
      · rcases mem_mapSet_elim _ _ _ _ hp with heq | hold
        · subst heq
          exact ⟨(key, room), hqmem, filter_proj_sublist room.members _⟩
        · exact ⟨p, hold, List.Sublist.refl _⟩

theorem kick_counter (mgr : RoomManager) (hostId targetId : String) :
    (kick mgr hostId targetId).2.globalJoinCounter = mgr.globalJoinCounter := by
  unfold kick
  split
  · rfl
  · split
    · rfl
    · rfl

theorem kick_rooms_shrink (mgr : RoomManager) (hostId targetId : String) :
    ∀ p ∈ (kick mgr hostId targetId).2.rooms, ∃ q ∈ mgr.rooms,
      (p.2.members.map (fun m => (m.name, m.joinOrder))).Sublist
        (q.2.members.map (fun m => (m.name, m.joinOrder))) := by
  intro p hp
  unfold kick at hp
  split at hp
  · exact ⟨p, hp, List.Sublist.refl _⟩
  · rename_i kr key room hfind
    have hqmem : (key, room) ∈ mgr.rooms := List.mem_of_find?_eq_some hfind
    split at hp
    · exact ⟨p, hp, List.Sublist.refl _⟩
    · rcases mem_mapSet_elim _ _ _ _ hp with heq | hold
      · subst heq
        exact ⟨(key, room), hqmem, filter_proj_sublist room.members _⟩
      · exact ⟨p, hold, List.Sublist.refl _⟩

theorem roomsOK_reachable (mgr : RoomManager) (h : Reachable mgr) : RoomsOK mgr := by
  induction h with
  | init =>
    intro p hp
    simp [RoomManager.empty] at hp
  | step mgr2 mgr3 hr hs ih =>
    cases hs with
    | create roomId hostDeviceId hostClientId hostName joinCode mgrX hfresh heq =>
      rw [heq]
      exact roomsOK_create _ roomId hostDeviceId hostClientId hostName joinCode ih
    | join joinCode deviceId clientId name mgrX heq =>
      rw [heq]
      exact roomsOK_join _ joinCode deviceId clientId name ih
    | leave deviceId mgrX heq =>
      rw [heq]
      exact roomsOK_preserve _ _ (leaveRoom_counter _ deviceId)
        (leaveRoom_rooms_shrink _ deviceId) ih
    | kickStep hostDeviceId targetDeviceId mgrX heq =>
      rw [heq]
      exact roomsOK_preserve _ _ (kick_counter _ hostDeviceId targetDeviceId)
        (kick_rooms_shrink _ hostDeviceId targetDeviceId) ih

/-- C3 (amended): in every manager state reachable by any sequence of
createRoom, joinRoomByCode, leaveRoom and kick, every room's member names
are pairwise distinct and member joinOrders are pairwise distinct.  Member
deviceIds need not be distinct: joinRoomByCode checks only the name. -/
theorem reachable_names_joinOrders_distinct (mgr : RoomManager) (h : Reachable mgr) :
    ∀ p ∈ mgr.rooms,
      (p.2.members.map Member.name).Nodup ∧ (p.2.members.map Member.joinOrder).Nodup :=
  fun p hp => ⟨(roomsOK_reachable mgr h p hp).2.1, (roomsOK_reachable mgr h p hp).2.2⟩

def ceMgrDup : RoomManager :=
  (joinRoomByCode
    (createRoom RoomManager.empty ("r1") ("A") ("c1") ("Alice") ("QQQQ11")).2
    ("QQQQ11") ("A") ("c2") ("Bob")).2

/-- C3 counterexample: the same deviceId can join a room it already
occupies under a different name, so a reachable snapshot has two members
with deviceId A and the claimed deviceId distinctness fails. -/
theorem duplicate_deviceId_reachable :
    Reachable ceMgrDup ∧
    ∃ room : Room, mapGet ceMgrDup.rooms ("r1") = some room ∧
      room.members.map Member.deviceId = [("A"), ("A")] ∧
      ¬ (room.members.map Member.deviceId).Nodup := by
  constructor
  · have h1 : Step RoomManager.empty
        (createRoom RoomManager.empty ("r1") ("A") ("c1") ("Alice") ("QQQQ11")).2 :=
      Step.create _ _ _ _ _ _ _ rfl rfl
    have h2 : Step (createRoom RoomManager.empty ("r1") ("A") ("c1") ("Alice") ("QQQQ11")).2
        ceMgrDup :=
      Step.join _ ("QQQQ11") ("A") ("c2") ("Bob") _ rfl
    exact Reachable.step _ _ (Reachable.step _ _ Reachable.init h1) h2
  · exact ⟨_, rfl, rfl, by decide⟩

def ceRoomDup : Room :=
  { roomId := ("r1"), joinCode := ("QQQQ11"), hostDeviceId := ("A")
    members := [{ deviceId := ("A"), clientId := ("c1"), name := ("Alice")
                  joinOrder := 0, role := .host },
                { deviceId := ("A"), clientId := ("c2"), name := ("Bob")
                  joinOrder := 1, role := .member }]
    chat := [] }

/-- Witness for C3 at the concrete reachable two-member state: the names
and joinOrders there are distinct. -/
theorem reachable_names_joinOrders_distinct_witness :
    (ceRoomDup.members.map Member.name).Nodup ∧
      (ceRoomDup.members.map Member.joinOrder).Nodup :=
  reachable_names_joinOrders_distinct ceMgrDup
    (Reachable.step _ _
      (Reachable.step _ _ Reachable.init
        (show Step RoomManager.empty
            (createRoom RoomManager.empty ("r1") ("A") ("c1") ("Alice") ("QQQQ11")).2 from
          Step.create _ _ _ _ _ _ _ rfl rfl))
      (show Step (createRoom RoomManager.empty ("r1") ("A") ("c1") ("Alice") ("QQQQ11")).2
          ceMgrDup from
        Step.join _ ("QQQQ11") ("A") ("c2") ("Bob") _ rfl))
    ((("r1"), ceRoomDup)) (by decide)

/- =========================
   Claim C2: the one-host invariant
========================= -/

def ceMgrC2 : RoomManager :=
  (joinRoomByCode (createRoom RoomManager.empty ("r2") ("A") ("c1") ("Alice") ("KKKK22")).2
    ("KKKK22") ("B") ("c2") ("Bob")).2

/-- C2 failing input: in a reachable two-member room the host kicks its own
deviceId.  kick filters the host out without re-electing or destroying, so
the surviving non-destroyed room keeps hostDeviceId A, has a nonempty
member list, and no member at all with role host; the exactly-one-host
invariant fails even though leaveRoom re-elects in the same situation. -/
theorem kick_self_breaks_host_invariant :
    Reachable ceMgrC2 ∧
    ∃ room : Room, (kick ceMgrC2 ("A") ("A")).1 = .ok room ∧
      room.hostDeviceId = ("A") ∧
      ¬ room.members = [] ∧
      (room.members.filter (fun m => m.role = Role.host)).length = 0 ∧
      mapGet (kick ceMgrC2 ("A") ("A")).2.rooms ("r2") = some room := by
  constructor
  · have h1 : Step RoomManager.empty
        (createRoom RoomManager.empty ("r2") ("A") ("c1") ("Alice") ("KKKK22")).2 :=
      Step.create _ _ _ _ _ _ _ rfl rfl
    have h2 : Step (createRoom RoomManager.empty ("r2") ("A") ("c1") ("Alice") ("KKKK22")).2
        ceMgrC2 :=
      Step.join _ ("KKKK22") ("B") ("c2") ("Bob") _ rfl
    exact Reachable.step _ _ (Reachable.step _ _ Reachable.init h1) h2
  · exact ⟨_, rfl, rfl, by decide, by decide, rfl⟩

end LanForge
